import Mathlib

/-!
Shallow embedding of the datamatrix finder-pattern locator
(`dls_barcode/datamatrix/locate_contour.py`) and proofs about it.

Vertices produced by the contour extractor have integer coordinates, so
vertices and vectors are modelled as pairs of integers; the floating-point
length/angle computations of the source are modelled over the reals with
`Real.sqrt`.  Code paths that raise a Python exception are modelled with
`Option`: a `none` anywhere aborts the whole `locate` call, exactly as an
uncaught exception would.
-/

namespace PuckBarcode

/-- A 2D point with integer coordinates, as returned by `approxPolyDP`. -/
abbrev Vertex : Type := ℤ × ℤ

/-- An edge of a polygon: an ordered pair (tail, head) of vertices. -/
abbrev Edge : Type := Vertex × Vertex

/-- Result type of the locator.  The repository class `FinderPattern`
(file `finder_pattern.py`) is not part of the sources provided.
Modelled from the spec: a record of the corner and the two edge vectors
originating at it. -/
structure FinderPattern where
  corner : Vertex
  base_vector : Vertex
  side_vector : Vertex
deriving DecidableEq, Repr

/-- Source `np.dot` applied to two 2D integer vectors. -/
def dotZ (a b : Vertex) : ℤ := a.1 * b.1 + a.2 * b.2

/-- The signed 2D cross product `a[0]*b[1] - a[1]*b[0]` computed in
`_get_finder_pattern`. -/
def crossZ (a b : Vertex) : ℤ := a.1 * b.2 - a.2 * b.1

/-- Source `quadrature_add(*values)` for a 2D vector:
`math.sqrt(x*x + y*y)`. -/
noncomputable def quadrature_add (x y : ℤ) : ℝ :=
  Real.sqrt ((x * x + y * y : ℤ) : ℝ)

/-- Source `_modulus(vector) = quadrature_add(*vector)`. -/
noncomputable def modulusV (v : Vertex) : ℝ := quadrature_add v.1 v.2

/-- Source `_distance(a, b) = _modulus(subtract(a, b))`. -/
noncomputable def distanceV (a b : Vertex) : ℝ := modulusV (a - b)

/-- Source `_length(edge) = _distance(*edge)`. -/
noncomputable def lengthE (e : Edge) : ℝ := distanceV e.1 e.2

/-- Source `_cosine(a, b) = dot(a, b) / (_modulus(a) * _modulus(b))`. -/
noncomputable def cosineV (a b : Vertex) : ℝ :=
  (dotZ a b : ℝ) / (modulusV a * modulusV b)

/-- Helper for proofs and evaluation: the squared length of a vector as a
natural number.  `modulusV v = Real.sqrt (normSq v)`. -/
def normSq (v : Vertex) : ℕ := (v.1 * v.1 + v.2 * v.2).toNat

/-- Helper: squared length of an edge. -/
def lengthSq (e : Edge) : ℕ := normSq (e.1 - e.2)

/-- Source `_pairs_circular` applied after the first two elements have been
consumed: `zeroth` is the first element of the iterable, `x` the element
yielded last as a left component, and the argument list what remains. -/
def pairsAux (zeroth x : Vertex) : List Vertex → List Edge
  | [] => [(x, zeroth)]
  | y :: rest => (x, y) :: pairsAux zeroth y rest

/-- Source `_pairs_circular(iterable)`: pairs of consecutive elements,
wrapping the last element around to the first.  Empty and singleton
iterables yield no pairs (the generator swallows the corresponding
`StopIteration` / `UnboundLocalError`). -/
def pairs_circular : List Vertex → List Edge
  | [] => []
  | [_] => []
  | x :: y :: rest => (x, y) :: pairsAux x y rest

/-- Source `_convert_to_edge_set(vertex_list) = list(_pairs_circular(vertex_list))`. -/
def convert_to_edge_set (vertex_list : List Vertex) : List Edge :=
  pairs_circular vertex_list

/-- Pair a list's elements with their indices, starting at `i`. -/
def withIdx {α : Type} (i : ℕ) : List α → List (ℕ × α)
  | [] => []
  | a :: l => (i, a) :: withIdx (i + 1) l

/-- Comparison on index/key pairs by key, the order used to model
`np.argsort` (ascending, stable). -/
def leKey {α : Type} [LinearOrder α] : (ℕ × α) → (ℕ × α) → Prop :=
  fun p q => p.2 ≤ q.2

instance leKeyDec {α : Type} [LinearOrder α] : DecidableRel (@leKey α _) :=
  fun p q => inferInstanceAs (Decidable (p.2 ≤ q.2))

/-- Model of `np.asarray(keys).argsort()`: the indices of `keys` listed in
ascending order of key (stable insertion sort; `np.argsort` tie order is
unspecified, so a deterministic stable order is chosen here). -/
def argsort {α : Type} [LinearOrder α] (keys : List α) : List ℕ :=
  (List.insertionSort leKey (withIdx 0 keys)).map Prod.fst

/-- Source `_longest_pair_indices(edges)`:
`np.asarray(lengths).argsort()[-2:][::-1]`, i.e. the index of the longest
edge followed by the index of the second longest.  Unpacking `i, j = ...`
raises when fewer than two edges are given; that failure is `none`. -/
noncomputable def longest_pair_indices (edges : List Edge) : Option (ℕ × ℕ) :=
  match (argsort (edges.map lengthE)).reverse with
  | i :: j :: _ => some (i, j)
  | _ => none

/-- Default edge used to model Python list indexing (indices produced by
`argsort` are always in bounds, so the default is never read). -/
def dEdge : Edge := ((0, 0), (0, 0))

/-- Source `_filter_non_trivial(edge_set)`: `len(edge_set) > 6`. -/
def filter_non_trivial (edge_set : List Edge) : Bool :=
  edge_set.length > 6

/-- Source `_filter_longest_adjacent(edges)`: the two longest edges have
circularly adjacent indices.  `none` models the unpacking failure of
`_longest_pair_indices` on lists with fewer than two edges. -/
noncomputable def filter_longest_adjacent (edges : List Edge) : Option Bool :=
  (longest_pair_indices edges).map fun ij =>
    decide (((ij.1 : ℤ) - ij.2).natAbs = 1 ∨ ((ij.1 : ℤ) - ij.2).natAbs = edges.length - 1)

/-- Source `_filter_longest_approx_orthogonal(edges)`:
`abs(_cosine(v_i, v_j)) < 0.1` for the direction vectors
`v = np.subtract(*edges[x])` of the two longest edges. -/
noncomputable def filter_longest_approx_orthogonal (edges : List Edge) : Option Bool :=
  (longest_pair_indices edges).map fun ij =>
    let vi := (edges.getD ij.1 dEdge).1 - (edges.getD ij.1 dEdge).2
    let vj := (edges.getD ij.2 dEdge).1 - (edges.getD ij.2 dEdge).2
    decide (|cosineV vi vj| < 1 / 10)

/-- Source `_filter_longest_similar_in_length(edges)`:
`abs(l_i - l_j) / abs(l_i + l_j) < 0.1` for the lengths of the two longest
edges. -/
noncomputable def filter_longest_similar_in_length (edges : List Edge) : Option Bool :=
  (longest_pair_indices edges).map fun ij =>
    let li := lengthE (edges.getD ij.1 dEdge)
    let lj := lengthE (edges.getD ij.2 dEdge)
    decide (|li - lj| / |li + lj| < 1 / 10)

/-- Source `_get_shared_vertex(edge_a, edge_b)`: the first vertex of
`edge_a` equal to a vertex of `edge_b`; the implicit `None` on fall-through
is `none`. -/
def get_shared_vertex (edge_a edge_b : Edge) : Option Vertex :=
  if edge_a.1 = edge_b.1 ∨ edge_a.1 = edge_b.2 then some edge_a.1
  else if edge_a.2 = edge_b.1 ∨ edge_a.2 = edge_b.2 then some edge_a.2
  else none

/-- Source `_get_other_vertex(vertex, edge)`: the first vertex of `edge`
not equal to `vertex`; the implicit `None` on fall-through is `none`. -/
def get_other_vertex (vertex : Vertex) (edge : Edge) : Option Vertex :=
  if edge.1 ≠ vertex then some edge.1
  else if edge.2 ≠ vertex then some edge.2
  else none

/-- Source `_get_finder_pattern(edges)`.  A `none` from
`_get_shared_vertex` or `_get_other_vertex` makes the subsequent vector
arithmetic raise a `TypeError` in the source; both failures are modelled
as `none`. -/
noncomputable def get_finder_pattern (edges : List Edge) : Option FinderPattern :=
  match longest_pair_indices edges with
  | none => none
  | some (i, j) =>
    let ei := edges.getD i dEdge
    let ej := edges.getD j dEdge
    match get_shared_vertex ei ej with
    | none => none
    | some x_corner =>
      match get_other_vertex x_corner ei, get_other_vertex x_corner ej with
      | some c, some d =>
        let vec_c := c - x_corner
        let vec_d := d - x_corner
        if crossZ vec_c vec_d < 0 then some ⟨x_corner, vec_c, vec_d⟩
        else some ⟨x_corner, vec_d, vec_c⟩
      | _, _ => none

/-- Python `filter` forced by the final list comprehension, with failure
propagation: an exception while testing any element aborts the whole
computation. -/
def filterOpt {α : Type} (p : α → Option Bool) : List α → Option (List α)
  | [] => some []
  | x :: xs =>
    match p x, filterOpt p xs with
    | some b, some rest => some (if b then x :: rest else rest)
    | _, _ => none

/-- Python list comprehension `[f(x) for x in l]` with failure
propagation. -/
def mapOpt {α β : Type} (f : α → Option β) : List α → Option (List β)
  | [] => some []
  | x :: xs =>
    match f x, mapOpt f xs with
    | some y, some rest => some (y :: rest)
    | _, _ => none

/-- The pure tail of `locate_datamatrices`: from the contour vertex lists
produced by `_get_contours` to the finder pattern list.  Converts contours
to edge sets, runs the four-filter cascade in order, and extracts a finder
pattern from each survivor. -/
noncomputable def locate_from_contours (contour_vertex_sets : List (List Vertex)) :
    Option (List FinderPattern) := do
  let edge_sets := contour_vertex_sets.map convert_to_edge_set
  let edge_sets := edge_sets.filter filter_non_trivial
  let edge_sets ← filterOpt filter_longest_adjacent edge_sets
  let edge_sets ← filterOpt filter_longest_approx_orthogonal edge_sets
  let edge_sets ← filterOpt filter_longest_similar_in_length edge_sets
  mapOpt get_finder_pattern edge_sets

/-! ### Computable evaluation forms

`lengthE` is a square root, so `longest_pair_indices` and everything
downstream cannot be evaluated by the kernel.  Each definition below is a
computable counterpart keyed on squared integer lengths; the lemmas that
follow prove it extensionally equal to the source embedding, which lets
concrete runs be settled by `decide`. -/

/-- Computable counterpart of `longest_pair_indices`, keyed on squared
lengths. -/
def longestPairIndicesC (edges : List Edge) : Option (ℕ × ℕ) :=
  match (argsort (edges.map lengthSq)).reverse with
  | i :: j :: _ => some (i, j)
  | _ => none

/-- Computable counterpart of `filter_longest_adjacent`. -/
def filterAdjacentC (edges : List Edge) : Option Bool :=
  (longestPairIndicesC edges).map fun ij =>
    decide (((ij.1 : ℤ) - ij.2).natAbs = 1 ∨ ((ij.1 : ℤ) - ij.2).natAbs = edges.length - 1)

/-- Computable counterpart of `filter_longest_approx_orthogonal`. -/
def filterOrthogonalC (edges : List Edge) : Option Bool :=
  (longestPairIndicesC edges).map fun ij =>
    let vi := (edges.getD ij.1 dEdge).1 - (edges.getD ij.1 dEdge).2
    let vj := (edges.getD ij.2 dEdge).1 - (edges.getD ij.2 dEdge).2
    decide (100 * dotZ vi vj ^ 2 < (normSq vi : ℤ) * (normSq vj : ℤ) ∨
      normSq vi = 0 ∨ normSq vj = 0)

/-- Computable counterpart of `filter_longest_similar_in_length`. -/
def filterSimilarC (edges : List Edge) : Option Bool :=
  (longestPairIndicesC edges).map fun ij =>
    let a := lengthSq (edges.getD ij.1 dEdge)
    let b := lengthSq (edges.getD ij.2 dEdge)
    decide ((a = 0 ∧ b = 0) ∨ 81 * max a b < 121 * min a b)

/-- Computable counterpart of `get_finder_pattern`. -/
def getFinderPatternC (edges : List Edge) : Option FinderPattern :=
  match longestPairIndicesC edges with
  | none => none
  | some (i, j) =>
    let ei := edges.getD i dEdge
    let ej := edges.getD j dEdge
    match get_shared_vertex ei ej with
    | none => none
    | some x_corner =>
      match get_other_vertex x_corner ei, get_other_vertex x_corner ej with
      | some c, some d =>
        let vec_c := c - x_corner
        let vec_d := d - x_corner
        if crossZ vec_c vec_d < 0 then some ⟨x_corner, vec_c, vec_d⟩
        else some ⟨x_corner, vec_d, vec_c⟩
      | _, _ => none

/-- Computable counterpart of `locate_from_contours`. -/
def locateFromContoursC (contour_vertex_sets : List (List Vertex)) :
    Option (List FinderPattern) := do
  let edge_sets := contour_vertex_sets.map convert_to_edge_set
  let edge_sets := edge_sets.filter filter_non_trivial
  let edge_sets ← filterOpt filterAdjacentC edge_sets
  let edge_sets ← filterOpt filterOrthogonalC edge_sets
  let edge_sets ← filterOpt filterSimilarC edge_sets
  mapOpt getFinderPatternC edge_sets

/-! ### Buffer store and external collaborators

The OpenCV primitives are external collaborators; they are modelled as an
abstract structure of content transforms.  To make the frame claim about
the input image meaningful, image buffers live in an explicit store of
handles: each primitive that returns a fresh image allocates a new handle,
and `findContours` — which may modify its argument in place — writes back
to the handle it is given.  `arr.copy()` allocates a fresh handle with the
same content. -/

structure Store (Image : Type) where
  bufs : ℕ → Image
  next : ℕ

def Store.read {Image : Type} (s : Store Image) (h : ℕ) : Image := s.bufs h

def Store.alloc {Image : Type} (s : Store Image) (img : Image) : ℕ × Store Image :=
  (s.next, ⟨fun k => if k = s.next then img else s.bufs k, s.next + 1⟩)

def Store.write {Image : Type} (s : Store Image) (h : ℕ) (img : Image) : Store Image :=
  ⟨fun k => if k = h then img else s.bufs k, s.next⟩

/-- The external image primitives consumed by the locator, as abstract
content transforms.  `findContours` returns the content of its argument
buffer after the call (the OpenCV 2/3 call may modify it in place)
together with the raw contours; `approxPolyDP` is applied with the fixed
tolerance 6.0 and closed flag of the source. -/
structure Externals (Image SElem Raw : Type) where
  adaptiveThreshold : Image → ℤ → ℤ → Image
  getStructuringElement : ℤ → SElem
  morphologyEx : Image → SElem → Image
  findContours : Image → Image × List Raw
  approxPolyDP : Raw → List Vertex

/-- Source `_do_morph(gray, blocksize, C, morphsize)`: adaptive threshold
then morphological close, each producing a fresh buffer. -/
def do_morph {Image SElem Raw : Type} (ext : Externals Image SElem Raw)
    (s : Store Image) (gray : ℕ) (blocksize C morphsize : ℤ) : ℕ × Store Image :=
  let p1 := s.alloc (ext.adaptiveThreshold (s.read gray) blocksize C)
  let element := ext.getStructuringElement morphsize
  p1.2.alloc (ext.morphologyEx (p1.2.read p1.1) element)

/-- Source `_get_contours(arr)`: `findContours` is called on `arr.copy()`
(a fresh buffer with the same content), its in-place modification lands on
the copy, and every raw contour is simplified by `approxPolyDP`. -/
def get_contours {Image SElem Raw : Type} (ext : Externals Image SElem Raw)
    (s : Store Image) (arr : ℕ) : List (List Vertex) × Store Image :=
  let p1 := s.alloc (s.read arr)
  let r := ext.findContours (p1.2.read p1.1)
  let s2 := p1.2.write p1.1 r.1
  (r.2.map ext.approxPolyDP, s2)

/-- Source `locate_datamatrices(gray_img, blocksize, C, close_size)`:
morph, trace contours, then the pure filter/extract pipeline.  The first
component is the returned list (`none` for an uncaught exception), the
second the final buffer store. -/
noncomputable def locate_datamatrices {Image SElem Raw : Type}
    (ext : Externals Image SElem Raw) (s : Store Image) (gray_img : ℕ)
    (blocksize C close_size : ℤ) : Option (List FinderPattern) × Store Image :=
  let m := do_morph ext s gray_img blocksize C close_size
  let c := get_contours ext m.2 m.1
  (locate_from_contours c.1, c.2)

/-! ### Concrete inputs used for witnesses and counterexamples -/

/-- An 8-vertex notched square: the two longest edges (squared lengths 121
and 100) are the last and the first, circularly adjacent, orthogonal and
similar in length. -/
def contourB : List Vertex :=
  [(0, 0), (10, 0), (10, 3), (6, 3), (6, 8), (5, 8), (5, 10), (0, 11)]

/-- The finder pattern the locator produces for `contourB`. -/
def fpB : FinderPattern := ⟨(0, 0), (0, 11), (10, 0)⟩

/-- The edge set of `contourB`. -/
def esGood : List Edge := convert_to_edge_set contourB

/-- An edge set with seven edges whose two longest edges have adjacent
indices, are orthogonal and of similar length, but do not share a vertex.
It passes the whole filter cascade yet makes `_get_shared_vertex` fall
through. -/
def esBad : List Edge :=
  [((0, 0), (10, 0)), ((20, 20), (20, 31)), ((0, 0), (1, 0)), ((0, 0), (1, 1)),
    ((0, 0), (2, 0)), ((0, 0), (3, 0)), ((0, 0), (4, 0))]

/-- A trivial instantiation of the external collaborators over `ℕ`
images, used to exercise `locate_datamatrices` on concrete stores. -/
def extTriv : Externals ℕ ℕ ℕ :=
  ⟨fun _ _ _ => 0, fun _ => 0, fun _ _ => 0, fun i => (i, []), fun _ => []⟩

/-- A one-buffer store holding the input image at handle 0. -/
def storeTriv : Store ℕ := ⟨fun _ => 0, 1⟩

/-! ### Basic numeric and edge-set lemmas -/

theorem normSq_cast (v : Vertex) : ((normSq v : ℤ) : ℝ) = ((v.1 * v.1 + v.2 * v.2 : ℤ) : ℝ) := by
  have h : (0:ℤ) ≤ v.1 * v.1 + v.2 * v.2 :=
    add_nonneg (mul_self_nonneg _) (mul_self_nonneg _)
  rw [normSq, Int.toNat_of_nonneg h]

theorem modulusV_eq_sqrt (v : Vertex) : modulusV v = Real.sqrt (normSq v) := by
  rw [modulusV, quadrature_add]
  congr 1
  rw [← normSq_cast v]
  push_cast
  ring

theorem lengthE_eq_sqrt (e : Edge) : lengthE e = Real.sqrt (lengthSq e) := by
  rw [lengthE, distanceV, lengthSq, modulusV_eq_sqrt]

theorem pairsAux_eq_zip (zeroth x : Vertex) (l : List Vertex) :
    pairsAux zeroth x l = (x :: l).zip (l ++ [zeroth]) := by
  induction l generalizing x with
  | nil => rfl
  | cons y rest ih => simp [pairsAux, ih y, List.zip]

theorem pairs_circular_eq_zip_rotate (l : List Vertex) (h : 2 ≤ l.length) :
    pairs_circular l = l.zip (l.rotate 1) := by
  match l with
  | [] => simp at h
  | [_] => simp at h
  | x :: y :: rest =>
    rw [pairs_circular, pairsAux_eq_zip, List.rotate_cons_succ, List.rotate_zero]
    rfl

/-! ### argsort is invariant under a strictly monotone key change -/

theorem withIdx_map {α β : Type} (f : α → β) (i : ℕ) (l : List α) :
    withIdx i (l.map f) = (withIdx i l).map (Prod.map id f) := by
  induction l generalizing i with
  | nil => rfl
  | cons a l ih => simp [withIdx, ih]

theorem orderedInsert_map_key {α β : Type} [LinearOrder α] [LinearOrder β]
    (f : α → β) (hf : ∀ a b : α, f a ≤ f b ↔ a ≤ b)
    (p : ℕ × α) (l : List (ℕ × α)) :
    List.orderedInsert leKey (Prod.map id f p) (l.map (Prod.map id f)) =
      (List.orderedInsert leKey p l).map (Prod.map id f) := by
  induction l with
  | nil => rfl
  | cons q l ih =>
    by_cases h : leKey p q
    · have h' : leKey (Prod.map id f p) (Prod.map id f q) := (hf _ _).mpr h
      simp [List.orderedInsert, h, h']
    · have h' : ¬ leKey (Prod.map id f p) (Prod.map id f q) := fun hc => h ((hf _ _).mp hc)
      simp [List.orderedInsert, h, h', ih]

theorem insertionSort_map_key {α β : Type} [LinearOrder α] [LinearOrder β]
    (f : α → β) (hf : ∀ a b : α, f a ≤ f b ↔ a ≤ b) (l : List (ℕ × α)) :
    List.insertionSort leKey (l.map (Prod.map id f)) =
      (List.insertionSort leKey l).map (Prod.map id f) := by
  induction l with
  | nil => rfl
  | cons p l ih => simp only [List.map_cons, List.insertionSort, ih,
      orderedInsert_map_key f hf]

theorem argsort_map_key {α β : Type} [LinearOrder α] [LinearOrder β]
    (f : α → β) (hf : ∀ a b : α, f a ≤ f b ↔ a ≤ b) (l : List α) :
    argsort (l.map f) = argsort l := by
  rw [argsort, argsort, withIdx_map, insertionSort_map_key f hf, List.map_map]
  congr 1

theorem sqrt_nat_le_iff (a b : ℕ) :
    Real.sqrt a ≤ Real.sqrt b ↔ a ≤ b := by
  rw [Real.sqrt_le_sqrt_iff (Nat.cast_nonneg b), Nat.cast_le]

theorem map_lengthE_eq (edges : List Edge) :
    edges.map lengthE = (edges.map lengthSq).map (fun n : ℕ => Real.sqrt n) := by
  rw [List.map_map]
  exact List.map_congr_left fun e _ => lengthE_eq_sqrt e

theorem longest_pair_indices_eq (edges : List Edge) :
    longest_pair_indices edges = longestPairIndicesC edges := by
  rw [longest_pair_indices, longestPairIndicesC, map_lengthE_eq,
    argsort_map_key (fun n : ℕ => Real.sqrt n) sqrt_nat_le_iff]

/-! ### The real-valued filter conditions versus their integer forms -/

theorem cosineV_eq (v w : Vertex) :
    cosineV v w = (dotZ v w : ℝ) / (Real.sqrt (normSq v) * Real.sqrt (normSq w)) := by
  rw [cosineV, modulusV_eq_sqrt, modulusV_eq_sqrt]

theorem cosine_bound_iff (v w : Vertex) :
    |cosineV v w| < 1 / 10 ↔
      (100 * dotZ v w ^ 2 < (normSq v : ℤ) * (normSq w : ℤ) ∨
        normSq v = 0 ∨ normSq w = 0) := by
  rcases Nat.eq_zero_or_pos (normSq v) with hv | hv
  · have : cosineV v w = 0 := by
      rw [cosineV_eq, hv]
      simp
    rw [this]
    norm_num
    tauto
  rcases Nat.eq_zero_or_pos (normSq w) with hw | hw
  · have : cosineV v w = 0 := by
      rw [cosineV_eq, hw]
      simp
    rw [this]
    norm_num
    tauto
  have hva : (0:ℝ) < (normSq v : ℝ) := by exact_mod_cast hv
  have hwa : (0:ℝ) < (normSq w : ℝ) := by exact_mod_cast hw
  have hsv : (0:ℝ) < Real.sqrt (normSq v) := Real.sqrt_pos.mpr hva
  have hsw : (0:ℝ) < Real.sqrt (normSq w) := Real.sqrt_pos.mpr hwa
  have hprod : (0:ℝ) < Real.sqrt (normSq v) * Real.sqrt (normSq w) := mul_pos hsv hsw
  have key : |cosineV v w| < 1 / 10 ↔
      100 * (dotZ v w : ℝ) ^ 2 < (normSq v : ℝ) * (normSq w : ℝ) := by
    rw [cosineV_eq, abs_div, abs_of_pos hprod, div_lt_div_iff₀ hprod (by norm_num)]
    rw [← Real.sqrt_mul (le_of_lt hva)]
    constructor
    · intro h
      have h10 : |(dotZ v w : ℝ)| * 10 < Real.sqrt ((normSq v : ℝ) * (normSq w : ℝ)) := by
        linarith
      have := (Real.lt_sqrt (by positivity)).mp h10
      calc 100 * (dotZ v w : ℝ) ^ 2 = (|(dotZ v w : ℝ)| * 10) ^ 2 := by
            rw [mul_pow, sq_abs]; ring
        _ < _ := this
    · intro h
      have h2 : (|(dotZ v w : ℝ)| * 10) ^ 2 < (normSq v : ℝ) * (normSq w : ℝ) := by
        calc (|(dotZ v w : ℝ)| * 10) ^ 2 = 100 * (dotZ v w : ℝ) ^ 2 := by
              rw [mul_pow, sq_abs]; ring
          _ < _ := h
      have := (Real.lt_sqrt (by positivity)).mpr h2
      linarith
  rw [key]
  have hcast : (100 * (dotZ v w : ℝ) ^ 2 < (normSq v : ℝ) * (normSq w : ℝ)) ↔
      (100 * dotZ v w ^ 2 < (normSq v : ℤ) * (normSq w : ℤ)) := by
    constructor
    · intro h
      exact_mod_cast h
    · intro h
      exact_mod_cast h
  rw [hcast]
  constructor
  · exact Or.inl
  · rintro (h | h | h)
    · exact h
    · exact absurd h (Nat.pos_iff_ne_zero.mp hv)
    · exact absurd h (Nat.pos_iff_ne_zero.mp hw)

theorem mul_sqrt_eq (c x : ℝ) (hc : 0 ≤ c) :
    c * Real.sqrt x = Real.sqrt (c ^ 2 * x) := by
  rw [Real.sqrt_mul (by positivity) x, Real.sqrt_sq hc]

theorem nine_elev_sqrt (x y : ℝ) (hx : 0 ≤ x) :
    (9 * Real.sqrt x < 11 * Real.sqrt y) ↔ 81 * x < 121 * y := by
  rw [mul_sqrt_eq 9 x (by norm_num), mul_sqrt_eq 11 y (by norm_num),
    Real.sqrt_lt_sqrt_iff (by positivity)]
  norm_num

theorem sqrt_similar_iff (a b : ℕ) :
    |Real.sqrt a - Real.sqrt b| / |Real.sqrt a + Real.sqrt b| < 1 / 10 ↔
      ((a = 0 ∧ b = 0) ∨ 81 * max a b < 121 * min a b) := by
  have hs : (0:ℝ) ≤ Real.sqrt a := Real.sqrt_nonneg _
  have ht : (0:ℝ) ≤ Real.sqrt b := Real.sqrt_nonneg _
  by_cases h0 : a = 0 ∧ b = 0
  · obtain ⟨ha, hb⟩ := h0
    subst ha
    subst hb
    norm_num
  · have hpos : (0:ℝ) < Real.sqrt a + Real.sqrt b := by
      rcases Nat.eq_zero_or_pos a with ha | ha
      · have hb : 0 < b := by
          rcases Nat.eq_zero_or_pos b with hb | hb
          · exact absurd ⟨ha, hb⟩ h0
          · exact hb
        have : (0:ℝ) < Real.sqrt b := Real.sqrt_pos.mpr (by exact_mod_cast hb)
        linarith
      · have : (0:ℝ) < Real.sqrt a := Real.sqrt_pos.mpr (by exact_mod_cast ha)
        linarith
    rw [abs_of_pos hpos, div_lt_div_iff₀ hpos (by norm_num)]
    have hmain : |Real.sqrt a - Real.sqrt b| * 10 < 1 * (Real.sqrt a + Real.sqrt b) ↔
        81 * max a b < 121 * min a b := by
      rcases le_total b a with hba | hab
      · have hts : Real.sqrt b ≤ Real.sqrt a := by
          rw [sqrt_nat_le_iff]; exact hba
        rw [abs_of_nonneg (by linarith), max_eq_left hba, min_eq_right hba]
        have hne : (9:ℝ) * Real.sqrt a < 11 * Real.sqrt b ↔
            81 * (a:ℝ) < 121 * (b:ℝ) :=
          nine_elev_sqrt (a:ℝ) (b:ℝ) (Nat.cast_nonneg a)
        constructor
        · intro h
          have h2 : (9:ℝ) * Real.sqrt a < 11 * Real.sqrt b := by linarith
          exact_mod_cast hne.mp h2
        · intro h
          have h2 : (9:ℝ) * Real.sqrt a < 11 * Real.sqrt b :=
            hne.mpr (by exact_mod_cast h)
          linarith
      · have hts : Real.sqrt a ≤ Real.sqrt b := by
          rw [sqrt_nat_le_iff]; exact hab
        rw [abs_of_nonpos (by linarith), max_eq_right hab, min_eq_left hab]
        have hne : (9:ℝ) * Real.sqrt b < 11 * Real.sqrt a ↔
            81 * (b:ℝ) < 121 * (a:ℝ) :=
          nine_elev_sqrt (b:ℝ) (a:ℝ) (Nat.cast_nonneg b)
        constructor
        · intro h
          have h2 : (9:ℝ) * Real.sqrt b < 11 * Real.sqrt a := by linarith
          exact_mod_cast hne.mp h2
        · intro h
          have h2 : (9:ℝ) * Real.sqrt b < 11 * Real.sqrt a :=
            hne.mpr (by exact_mod_cast h)
          linarith
    rw [hmain]
    constructor
    · exact Or.inr
    · rintro (h | h)
      · exact absurd h h0
      · exact h

theorem filter_longest_adjacent_eq (edges : List Edge) :
    filter_longest_adjacent edges = filterAdjacentC edges := by
  rw [filter_longest_adjacent, filterAdjacentC, longest_pair_indices_eq]

theorem filter_longest_approx_orthogonal_eq (edges : List Edge) :
    filter_longest_approx_orthogonal edges = filterOrthogonalC edges := by
  rw [filter_longest_approx_orthogonal, filterOrthogonalC, longest_pair_indices_eq]
  cases longestPairIndicesC edges with
  | none => rfl
  | some ij =>
    simp only [Option.map_some']
    congr 1
    exact decide_eq_decide.mpr (cosine_bound_iff _ _)

theorem filter_longest_similar_in_length_eq (edges : List Edge) :
    filter_longest_similar_in_length edges = filterSimilarC edges := by
  rw [filter_longest_similar_in_length, filterSimilarC, longest_pair_indices_eq]
  cases longestPairIndicesC edges with
  | none => rfl
  | some ij =>
    simp only [Option.map_some']
    congr 1
    rw [decide_eq_decide, lengthE_eq_sqrt, lengthE_eq_sqrt]
    exact sqrt_similar_iff _ _

theorem get_finder_pattern_eq (edges : List Edge) :
    get_finder_pattern edges = getFinderPatternC edges := by
  rw [get_finder_pattern, getFinderPatternC, longest_pair_indices_eq]

theorem filterOpt_congr {α : Type} {p q : α → Option Bool} (h : ∀ x, p x = q x) :
    ∀ l : List α, filterOpt p l = filterOpt q l
  | [] => rfl
  | x :: xs => by
    rw [filterOpt, filterOpt, h x, filterOpt_congr h xs]

theorem mapOpt_congr {α β : Type} {f g : α → Option β} (h : ∀ x, f x = g x) :
    ∀ l : List α, mapOpt f l = mapOpt g l
  | [] => rfl
  | x :: xs => by
    rw [mapOpt, mapOpt, h x, mapOpt_congr h xs]

theorem bind_congr_opt {α β : Type} {o : Option α} {f g : α → Option β}
    (h : ∀ a, f a = g a) : o.bind f = o.bind g := by
  cases o <;> simp [h]

theorem locate_from_contours_eq (contour_vertex_sets : List (List Vertex)) :
    locate_from_contours contour_vertex_sets = locateFromContoursC contour_vertex_sets := by
  rw [locate_from_contours, locateFromContoursC]
  show ((filterOpt filter_longest_adjacent _).bind fun l2 =>
      (filterOpt filter_longest_approx_orthogonal l2).bind fun l3 =>
      (filterOpt filter_longest_similar_in_length l3).bind fun l4 =>
      mapOpt get_finder_pattern l4) = _
  rw [filterOpt_congr filter_longest_adjacent_eq]
  refine bind_congr_opt fun l2 => ?_
  rw [filterOpt_congr filter_longest_approx_orthogonal_eq]
  refine bind_congr_opt fun l3 => ?_
  rw [filterOpt_congr filter_longest_similar_in_length_eq]
  refine bind_congr_opt fun l4 => ?_
  exact mapOpt_congr get_finder_pattern_eq l4

/-! ### Membership and totality lemmas for the cascade -/

theorem filterOpt_sound {α : Type} {p : α → Option Bool} :
    ∀ {l l' : List α}, filterOpt p l = some l' → ∀ x ∈ l', x ∈ l ∧ p x = some true
  | [], l', h => by
    rw [filterOpt] at h
    cases h
    intro x hx
    cases hx
  | a :: as, l', h => by
    rw [filterOpt] at h
    cases hb : p a with
    | none => rw [hb] at h; cases h
    | some b =>
      rw [hb] at h
      cases hrest : filterOpt p as with
      | none => rw [hrest] at h; cases h
      | some rest =>
        rw [hrest] at h
        cases h
        intro x hx
        cases b with
        | false =>
          have hx' : x ∈ rest := by simpa using hx
          have hr := filterOpt_sound hrest x hx'
          exact ⟨List.mem_cons_of_mem _ hr.1, hr.2⟩
        | true =>
          have hx' : x ∈ a :: rest := by simpa using hx
          rcases List.mem_cons.mp hx' with hxa | hxr
          · subst hxa
            exact ⟨List.mem_cons_self _ _, hb⟩
          · have hr := filterOpt_sound hrest x hxr
            exact ⟨List.mem_cons_of_mem _ hr.1, hr.2⟩

theorem filterOpt_total {α : Type} {p : α → Option Bool} :
    ∀ {l : List α}, (∀ x ∈ l, (p x).isSome) → (filterOpt p l).isSome
  | [], _ => by rw [filterOpt]; rfl
  | a :: as, h => by
    rw [filterOpt]
    cases hb : p a with
    | none =>
      have := h a (List.mem_cons_self _ _)
      rw [hb] at this
      cases this
    | some b =>
      have hrest := filterOpt_total (fun x hx => h x (List.mem_cons_of_mem _ hx))
      cases hr : filterOpt p as with
      | none => rw [hr] at hrest; cases hrest
      | some rest => simp

theorem mapOpt_sound {α β : Type} {f : α → Option β} :
    ∀ {l : List α} {l' : List β}, mapOpt f l = some l' →
      ∀ y ∈ l', ∃ x ∈ l, f x = some y
  | [], l', h => by
    rw [mapOpt] at h
    cases h
    intro y hy
    cases hy
  | a :: as, l', h => by
    rw [mapOpt] at h
    cases hb : f a with
    | none => rw [hb] at h; cases h
    | some b =>
      rw [hb] at h
      cases hrest : mapOpt f as with
      | none => rw [hrest] at h; cases h
      | some rest =>
        rw [hrest] at h
        cases h
        intro y hy
        rcases List.mem_cons.mp hy with hy | hy
        · subst hy
          exact ⟨a, List.mem_cons_self _ _, hb⟩
        · obtain ⟨x, hx, hfx⟩ := mapOpt_sound hrest y hy
          exact ⟨x, List.mem_cons_of_mem _ hx, hfx⟩

theorem mapOpt_none_of_mem {α β : Type} {f : α → Option β} :
    ∀ {l : List α} {x : α}, x ∈ l → f x = none → mapOpt f l = none
  | a :: as, x, hx, hfx => by
    rw [mapOpt]
    rcases List.mem_cons.mp hx with h | h
    · subst h
      rw [hfx]
    · cases hb : f a with
      | none => rfl
      | some b => rw [mapOpt_none_of_mem h hfx]

/-! ### Dissecting the extractor -/

theorem get_shared_vertex_mem {edge_a edge_b : Edge} {x : Vertex}
    (h : get_shared_vertex edge_a edge_b = some x) :
    (x = edge_a.1 ∨ x = edge_a.2) ∧ (x = edge_b.1 ∨ x = edge_b.2) := by
  rw [get_shared_vertex] at h
  by_cases h1 : edge_a.1 = edge_b.1 ∨ edge_a.1 = edge_b.2
  · rw [if_pos h1] at h
    cases h
    exact ⟨Or.inl rfl, by tauto⟩
  · rw [if_neg h1] at h
    by_cases h2 : edge_a.2 = edge_b.1 ∨ edge_a.2 = edge_b.2
    · rw [if_pos h2] at h
      cases h
      exact ⟨Or.inr rfl, by tauto⟩
    · rw [if_neg h2] at h
      cases h

theorem get_other_vertex_vec {x : Vertex} {e : Edge} {c : Vertex}
    (hx : x = e.1 ∨ x = e.2) (h : get_other_vertex x e = some c) :
    c - x = e.1 - e.2 ∨ c - x = -(e.1 - e.2) := by
  rw [get_other_vertex] at h
  by_cases h1 : e.1 ≠ x
  · rw [if_pos h1] at h
    cases h
    rcases hx with hx | hx
    · exact absurd hx.symm h1
    · subst hx
      exact Or.inl rfl
  · rw [if_neg h1] at h
    push_neg at h1
    by_cases h2 : e.2 ≠ x
    · rw [if_pos h2] at h
      cases h
      subst h1
      right
      ring
    · rw [if_neg h2] at h
      cases h

theorem modulusV_neg (v : Vertex) : modulusV (-v) = modulusV v := by
  rw [modulusV, modulusV, quadrature_add, quadrature_add]
  have h1 : (-v).1 = -v.1 := rfl
  have h2 : (-v).2 = -v.2 := rfl
  rw [h1, h2]
  congr 2
  ring

theorem cosineV_neg_left (a b : Vertex) : cosineV (-a) b = -(cosineV a b) := by
  rw [cosineV, cosineV, modulusV_neg]
  have : dotZ (-a) b = -(dotZ a b) := by
    have h1 : (-a).1 = -a.1 := rfl
    have h2 : (-a).2 = -a.2 := rfl
    rw [dotZ, dotZ, h1, h2]
    ring
  rw [this]
  push_cast
  ring

theorem cosineV_comm (a b : Vertex) : cosineV a b = cosineV b a := by
  rw [cosineV, cosineV]
  have : dotZ a b = dotZ b a := by rw [dotZ, dotZ]; ring
  rw [this, mul_comm]

theorem cosineV_neg_right (a b : Vertex) : cosineV a (-b) = -(cosineV a b) := by
  rw [cosineV_comm, cosineV_neg_left, cosineV_comm]

theorem abs_cosineV_pm {a b a' b' : Vertex}
    (ha : a' = a ∨ a' = -a) (hb : b' = b ∨ b' = -b) :
    |cosineV a' b'| = |cosineV a b| := by
  rcases ha with ha | ha <;> rcases hb with hb | hb <;> subst ha <;> subst hb <;>
    simp [cosineV_neg_left, cosineV_neg_right, abs_neg]

theorem modulusV_pm {a a' : Vertex} (ha : a' = a ∨ a' = -a) :
    modulusV a' = modulusV a := by
  rcases ha with ha | ha <;> subst ha
  · rfl
  · exact modulusV_neg a

theorem lengthE_nonneg (e : Edge) : 0 ≤ lengthE e := by
  rw [lengthE_eq_sqrt]
  exact Real.sqrt_nonneg _

theorem lengthE_eq_modulusV (e : Edge) : lengthE e = modulusV (e.1 - e.2) := rfl

/-- A finder pattern extracted from an edge set that passed the
orthogonality and similar-length filters inherits both bounds: the two
pattern vectors are, up to sign and order, the direction vectors of the
two longest edges. -/
theorem finder_pattern_bounds {edges : List Edge} {fp : FinderPattern}
    (ho : filter_longest_approx_orthogonal edges = some true)
    (hs : filter_longest_similar_in_length edges = some true)
    (hg : get_finder_pattern edges = some fp) :
    |cosineV fp.base_vector fp.side_vector| < 1 / 10 ∧
      |modulusV fp.base_vector - modulusV fp.side_vector| /
        (modulusV fp.base_vector + modulusV fp.side_vector) < 1 / 10 := by
  rw [get_finder_pattern] at hg
  cases hlpi : longest_pair_indices edges with
  | none => rw [hlpi] at hg; cases hg
  | some ij =>
    obtain ⟨i, j⟩ := ij
    rw [hlpi] at hg
    simp only at hg
    cases hsh : get_shared_vertex (edges.getD i dEdge) (edges.getD j dEdge) with
    | none => rw [hsh] at hg; cases hg
    | some x =>
      rw [hsh] at hg
      simp only at hg
      cases hc : get_other_vertex x (edges.getD i dEdge) with
      | none => rw [hc] at hg; exact Option.noConfusion hg
      | some c =>
        cases hd : get_other_vertex x (edges.getD j dEdge) with
        | none => rw [hc, hd] at hg; exact Option.noConfusion hg
        | some d =>
          rw [hc, hd] at hg
          simp only at hg
          -- the direction vectors used by the filters
          set vi := (edges.getD i dEdge).1 - (edges.getD i dEdge).2 with hvi
          set vj := (edges.getD j dEdge).1 - (edges.getD j dEdge).2 with hvj
          have hmem := get_shared_vertex_mem hsh
          have hvc : c - x = vi ∨ c - x = -vi :=
            get_other_vertex_vec (by tauto) hc
          have hvd : d - x = vj ∨ d - x = -vj :=
            get_other_vertex_vec (by tauto) hd
          -- the filter facts at the same pair of indices
          rw [filter_longest_approx_orthogonal, hlpi] at ho
          simp only [Option.map_some'] at ho
          have hcos : |cosineV vi vj| < 1 / 10 := by
            have := Option.some.inj ho
            rwa [decide_eq_true_eq] at this
          rw [filter_longest_similar_in_length, hlpi] at hs
          simp only [Option.map_some'] at hs
          have hsim : |lengthE (edges.getD i dEdge) - lengthE (edges.getD j dEdge)| /
              |lengthE (edges.getD i dEdge) + lengthE (edges.getD j dEdge)| < 1 / 10 := by
            have := Option.some.inj hs
            rwa [decide_eq_true_eq] at this
          have hmc : modulusV (c - x) = lengthE (edges.getD i dEdge) := by
            rw [lengthE_eq_modulusV]
            exact modulusV_pm (by rcases hvc with h | h <;> [exact Or.inl h; exact Or.inr h])
          have hmd : modulusV (d - x) = lengthE (edges.getD j dEdge) := by
            rw [lengthE_eq_modulusV]
            exact modulusV_pm (by rcases hvd with h | h <;> [exact Or.inl h; exact Or.inr h])
          have habs : |cosineV (c - x) (d - x)| = |cosineV vi vj| :=
            abs_cosineV_pm hvc hvd
          have hsum_abs : |lengthE (edges.getD i dEdge) + lengthE (edges.getD j dEdge)| =
              lengthE (edges.getD i dEdge) + lengthE (edges.getD j dEdge) :=
            abs_of_nonneg (add_nonneg (lengthE_nonneg _) (lengthE_nonneg _))
          rw [hsum_abs] at hsim
          -- two cases for the swap in the extractor
          have habs' : |cosineV (d - x) (c - x)| = |cosineV vi vj| := by
            rw [cosineV_comm]
            exact habs
          by_cases hcr : crossZ (c - x) (d - x) < 0
          · rw [if_pos hcr] at hg
            cases hg
            refine ⟨?_, ?_⟩
            · show |cosineV (c - x) (d - x)| < 1 / 10
              rw [habs]
              exact hcos
            · show |modulusV (c - x) - modulusV (d - x)| /
                (modulusV (c - x) + modulusV (d - x)) < 1 / 10
              rw [hmc, hmd]
              exact hsim
          · rw [if_neg hcr] at hg
            cases hg
            refine ⟨?_, ?_⟩
            · show |cosineV (d - x) (c - x)| < 1 / 10
              rw [habs']
              exact hcos
            · show |modulusV (d - x) - modulusV (c - x)| /
                (modulusV (d - x) + modulusV (c - x)) < 1 / 10
              rw [hmc, hmd, abs_sub_comm, add_comm]
              exact hsim

/-! ### Decomposing a successful locate run -/

theorem returned_fp_from {contours : List (List Vertex)} {fps : List FinderPattern}
    {fp : FinderPattern} (h : locate_from_contours contours = some fps) (hfp : fp ∈ fps) :
    ∃ es ∈ (contours.map convert_to_edge_set).filter filter_non_trivial,
      filter_longest_adjacent es = some true ∧
      filter_longest_approx_orthogonal es = some true ∧
      filter_longest_similar_in_length es = some true ∧
      get_finder_pattern es = some fp := by
  have h' : ((filterOpt filter_longest_adjacent
        ((contours.map convert_to_edge_set).filter filter_non_trivial)).bind fun l2 =>
      (filterOpt filter_longest_approx_orthogonal l2).bind fun l3 =>
      (filterOpt filter_longest_similar_in_length l3).bind fun l4 =>
      mapOpt get_finder_pattern l4) = some fps := h
  rcases Option.bind_eq_some.mp h' with ⟨l2, h2, hr1⟩
  rcases Option.bind_eq_some.mp hr1 with ⟨l3, h3, hr2⟩
  rcases Option.bind_eq_some.mp hr2 with ⟨l4, h4, hmap⟩
  obtain ⟨es, hes4, hges⟩ := mapOpt_sound hmap fp hfp
  have s4 := filterOpt_sound h4 es hes4
  have s3 := filterOpt_sound h3 es s4.1
  have s2 := filterOpt_sound h2 es s3.1
  exact ⟨es, s2.1, s2.2, s3.2, s4.2, hges⟩

theorem withIdx_length {α : Type} (i : ℕ) (l : List α) :
    (withIdx i l).length = l.length := by
  induction l generalizing i with
  | nil => rfl
  | cons a l ih => simp [withIdx, ih]

theorem argsort_length {α : Type} [LinearOrder α] (keys : List α) :
    (argsort keys).length = keys.length := by
  rw [argsort, List.length_map, List.length_insertionSort, withIdx_length]

theorem lpi_isSome {es : List Edge} (h : 2 ≤ es.length) :
    (longest_pair_indices es).isSome := by
  rw [longest_pair_indices]
  have hlen : ((argsort (es.map lengthE)).reverse).length = es.length := by
    rw [List.length_reverse, argsort_length, List.length_map]
  cases hrev : (argsort (es.map lengthE)).reverse with
  | nil =>
    rw [hrev] at hlen
    simp at hlen
    omega
  | cons i t =>
    cases t with
    | nil =>
      rw [hrev] at hlen
      simp at hlen
      omega
    | cons j t' => rfl

theorem locateB : locate_from_contours [contourB] = some [fpB] := by
  rw [locate_from_contours_eq]
  decide

/-! ### Claims -/

/-- C1: the claimed orientation invariant `base.x*side.y − base.y*side.x > 0`
fails on the code.  On the notched-square contour `contourB` the locator
returns the single finder pattern `fpB`, whose cross product is −110 < 0:
the extractor keeps `(vec_c, vec_d)` unswapped exactly when their cross
product is negative, inverting the convention stated in its own docstring
(the inline FIXME acknowledges the sign error). -/
theorem C1_cross_product_negative :
    locate_from_contours [contourB] = some [fpB] ∧
      crossZ fpB.base_vector fpB.side_vector < 0 :=
  ⟨locateB, by decide⟩

/-- C2 counterexample: the edge set `esBad` passes the whole filter
cascade but its two longest (index-adjacent) edges share no vertex; the
extraction stage then returns `none` for the whole batch — the contour is
not skipped, and a second, healthy edge set in the same batch is lost with
it. -/
theorem C2_counterexample :
    filter_non_trivial esBad = true ∧
      filter_longest_adjacent esBad = some true ∧
      filter_longest_approx_orthogonal esBad = some true ∧
      filter_longest_similar_in_length esBad = some true ∧
      get_finder_pattern esBad = none ∧
      get_finder_pattern esGood = some fpB ∧
      mapOpt get_finder_pattern [esBad, esGood] = none := by
  refine ⟨by decide, ?_, ?_, ?_, ?_, ?_, ?_⟩
  · rw [filter_longest_adjacent_eq]; decide
  · rw [filter_longest_approx_orthogonal_eq]; decide
  · rw [filter_longest_similar_in_length_eq]; decide
  · rw [get_finder_pattern_eq]; decide
  · rw [get_finder_pattern_eq]; decide
  · rw [mapOpt_congr get_finder_pattern_eq]; decide

/-- C2 amended: when the two longest adjacent edges of a contour do not
share a vertex, the extractor fails for that contour and the failure
aborts the whole extraction stage (the uncaught `TypeError` propagates out
of the list comprehension); the contour is not skipped. -/
theorem C2_extraction_failure_aborts {ess : List (List Edge)} {es : List Edge}
    (hmem : es ∈ ess) (hfail : get_finder_pattern es = none) :
    mapOpt get_finder_pattern ess = none :=
  mapOpt_none_of_mem hmem hfail

theorem C2_extraction_failure_aborts_witness :
    esBad ∈ [esBad] ∧ mapOpt get_finder_pattern [esBad] = none :=
  ⟨by simp, @C2_extraction_failure_aborts [esBad] esBad (by simp)
    (by rw [get_finder_pattern_eq]; decide)⟩

/-- C3 counterexample: with the invalid even blockSize 2 (and closeSize 1),
`locate_datamatrices` is not rejected with a configuration error: it
completes normally, returning an ordinary (empty) result, and the
preprocessor and contour stages did run — three fresh image buffers were
allocated. -/
theorem C3_counterexample :
    (locate_datamatrices extTriv storeTriv 0 2 0 1).1 = some [] ∧
      (locate_datamatrices extTriv storeTriv 0 2 0 1).2.next = storeTriv.next + 3 :=
  ⟨rfl, rfl⟩

/-- C3 amended: `locate_datamatrices` performs no parameter validation.
Even when blockSize is even or non-positive, or closeSize non-positive,
it unconditionally invokes the preprocessor and the contour extractor
(three buffers are allocated by those stages); any failure for bad
parameters would arise inside the external primitives, not before them. -/
theorem C3_no_parameter_validation {Image SElem Raw : Type}
    (ext : Externals Image SElem Raw) (s : Store Image) (gray : ℕ)
    (blocksize C close_size : ℤ)
    (hinvalid : blocksize % 2 = 0 ∨ blocksize ≤ 0 ∨ close_size ≤ 0) :
    (locate_datamatrices ext s gray blocksize C close_size).2.next = s.next + 3 := by
  simp [locate_datamatrices, do_morph, get_contours, Store.alloc, Store.write]

theorem C3_no_parameter_validation_witness :
    ((2:ℤ) % 2 = 0 ∨ (2:ℤ) ≤ 0 ∨ (1:ℤ) ≤ 0) ∧
      (locate_datamatrices extTriv storeTriv 0 2 0 1).2.next = storeTriv.next + 3 :=
  ⟨by decide, C3_no_parameter_validation extTriv storeTriv 0 2 0 1 (by decide)⟩

/-- C4: the Edge-Set Builder maps the vertex sequence `v0..v(n-1)` to
exactly the edges `(v0,v1), ..., (v(n-1),v0)` — for `n ≥ 2` these are the
`n` pairs of each vertex with its cyclic successor, each edge's head is
the next edge's tail circularly, and for `n = 0` and `n = 1` the result is
empty. -/
theorem C4_edge_set_builder (l : List Vertex) :
    (l.length ≤ 1 → convert_to_edge_set l = []) ∧
    (2 ≤ l.length →
      convert_to_edge_set l = l.zip (l.rotate 1) ∧
      (convert_to_edge_set l).length = l.length ∧
      ∀ i, i < l.length →
        ((convert_to_edge_set l).getD i dEdge).2 =
          ((convert_to_edge_set l).getD ((i + 1) % l.length) dEdge).1) := by
  constructor
  · intro h
    match l with
    | [] => rfl
    | [_] => rfl
    | a :: b :: t => simp [List.length_cons] at h
  · intro h2
    have hz : convert_to_edge_set l = l.zip (l.rotate 1) :=
      pairs_circular_eq_zip_rotate l h2
    have hlen : (l.zip (l.rotate 1)).length = l.length := by
      rw [List.length_zip, List.length_rotate, min_self]
    refine ⟨hz, by rw [hz, hlen], ?_⟩
    intro i hi
    have hi' : i < (l.zip (l.rotate 1)).length := by rw [hlen]; exact hi
    have hi1 : (i + 1) % l.length < l.length := Nat.mod_lt _ (by omega)
    have hi1' : (i + 1) % l.length < (l.zip (l.rotate 1)).length := by
      rw [hlen]; exact hi1
    rw [hz, List.getD_eq_getElem _ _ hi', List.getD_eq_getElem _ _ hi1',
      List.getElem_zip, List.getElem_zip, List.getElem_rotate]

theorem C4_edge_set_builder_witness :
    2 ≤ ([(0, 0), (4, 0), (4, 4), (0, 4)] : List Vertex).length ∧
      convert_to_edge_set [(0, 0), (4, 0), (4, 4), (0, 4)] =
        ([(0, 0), (4, 0), (4, 4), (0, 4)] : List Vertex).zip
          (([(0, 0), (4, 0), (4, 4), (0, 4)] : List Vertex).rotate 1) :=
  ⟨by decide, ((C4_edge_set_builder [(0, 0), (4, 0), (4, 4), (0, 4)]).2 (by decide)).1⟩

/-- C5: the non-trivial filter keeps an edge set iff it has strictly more
than 6 edges, and every finder pattern returned by a successful locate run
is extracted from some edge set of the input with more than 6 edges — an
edge set with 6 or fewer edges never yields a returned pattern. -/
theorem C5_nontrivial_filter :
    (∀ es : List Edge, filter_non_trivial es = true ↔ 6 < es.length) ∧
    ∀ (contours : List (List Vertex)) (fps : List FinderPattern) (fp : FinderPattern),
      locate_from_contours contours = some fps → fp ∈ fps →
        ∃ es ∈ contours.map convert_to_edge_set,
          6 < es.length ∧ get_finder_pattern es = some fp := by
  constructor
  · intro es
    rw [filter_non_trivial]
    exact decide_eq_true_iff
  · intro contours fps fp h hfp
    obtain ⟨es, hmem, _, _, _, hg⟩ := returned_fp_from h hfp
    rw [List.mem_filter] at hmem
    have h6 : 6 < es.length := by simpa [filter_non_trivial] using hmem.2
    exact ⟨es, hmem.1, h6, hg⟩

theorem C5_nontrivial_filter_witness :
    locate_from_contours [contourB] = some [fpB] ∧
      ∃ es ∈ [contourB].map convert_to_edge_set,
        6 < es.length ∧ get_finder_pattern es = some fpB :=
  ⟨locateB, C5_nontrivial_filter.2 [contourB] [fpB] fpB locateB (by simp)⟩

/-- C6: every finder pattern returned by a successful locate run satisfies
the orthogonality bound: the cosine of the angle between its base and side
vectors has magnitude below 0.1, because the orthogonality filter admitted
the edge set and the pattern's vectors equal the two longest edges'
direction vectors up to sign and order. -/
theorem C6_orthogonality_bound {contours : List (List Vertex)}
    {fps : List FinderPattern} {fp : FinderPattern}
    (h : locate_from_contours contours = some fps) (hfp : fp ∈ fps) :
    |cosineV fp.base_vector fp.side_vector| < 1 / 10 := by
  obtain ⟨es, _, _, ho, hs, hg⟩ := returned_fp_from h hfp
  exact (finder_pattern_bounds ho hs hg).1

theorem C6_orthogonality_bound_witness :
    locate_from_contours [contourB] = some [fpB] ∧
      |cosineV fpB.base_vector fpB.side_vector| < 1 / 10 :=
  ⟨locateB, C6_orthogonality_bound locateB (by simp)⟩

/-- C7: every finder pattern returned by a successful locate run satisfies
the length-similarity bound `|len(base) − len(side)| / (len(base) +
len(side)) < 0.1`, because the similar-length filter admitted its edge set
and the pattern's vectors have exactly the two longest edges' lengths. -/
theorem C7_length_similarity_bound {contours : List (List Vertex)}
    {fps : List FinderPattern} {fp : FinderPattern}
    (h : locate_from_contours contours = some fps) (hfp : fp ∈ fps) :
    |modulusV fp.base_vector - modulusV fp.side_vector| /
      (modulusV fp.base_vector + modulusV fp.side_vector) < 1 / 10 := by
  obtain ⟨es, _, _, ho, hs, hg⟩ := returned_fp_from h hfp
  exact (finder_pattern_bounds ho hs hg).2

theorem C7_length_similarity_bound_witness :
    locate_from_contours [contourB] = some [fpB] ∧
      |modulusV fpB.base_vector - modulusV fpB.side_vector| /
        (modulusV fpB.base_vector + modulusV fpB.side_vector) < 1 / 10 :=
  ⟨locateB, C7_length_similarity_bound locateB (by simp)⟩

/-- C8: locate is deterministic: two invocations with identical inputs —
the same external collaborators (hence the same contour-extractor
outputs), buffer store, image handle and parameters — produce identical
results, including identical finder-pattern sequences. -/
theorem C8_deterministic {Image SElem Raw : Type}
    (ext₁ ext₂ : Externals Image SElem Raw) (s₁ s₂ : Store Image) (g₁ g₂ : ℕ)
    (b₁ b₂ cc₁ cc₂ m₁ m₂ : ℤ) (hext : ext₁ = ext₂) (hs : s₁ = s₂)
    (hg : g₁ = g₂) (hb : b₁ = b₂) (hcc : cc₁ = cc₂) (hm : m₁ = m₂) :
    locate_datamatrices ext₁ s₁ g₁ b₁ cc₁ m₁ =
      locate_datamatrices ext₂ s₂ g₂ b₂ cc₂ m₂ := by
  subst hext; subst hs; subst hg; subst hb; subst hcc; subst hm; rfl

theorem C8_deterministic_witness :
    locate_datamatrices extTriv storeTriv 0 3 0 1 =
      locate_datamatrices extTriv storeTriv 0 3 0 1 :=
  C8_deterministic extTriv extTriv storeTriv storeTriv 0 0 3 3 0 0 1 1
    rfl rfl rfl rfl rfl rfl

/-- C9: locate never modifies the input grayscale image: thresholding and
closing allocate fresh buffers, and contour tracing operates on a copy, so
after any locate call the buffer holding the input image is unchanged. -/
theorem C9_input_image_unchanged {Image SElem Raw : Type}
    (ext : Externals Image SElem Raw) (s : Store Image) (gray : ℕ)
    (blocksize C close_size : ℤ) (hvalid : gray < s.next) :
    ((locate_datamatrices ext s gray blocksize C close_size).2).read gray =
      s.read gray := by
  simp only [locate_datamatrices, do_morph, get_contours, Store.alloc,
    Store.write, Store.read]
  split_ifs <;> first | rfl | omega

theorem C9_input_image_unchanged_witness :
    0 < storeTriv.next ∧
      ((locate_datamatrices extTriv storeTriv 0 3 5 2).2).read 0 = storeTriv.read 0 :=
  ⟨by decide, C9_input_image_unchanged extTriv storeTriv 0 3 5 2 (by decide)⟩

/-- C10: after the non-trivial filter, every edge set flowing through the
remaining filters and into the extractor has more than 6 edges, so the
longest-pair computation always sees at least two edges and its two-index
destructuring succeeds; in particular none of the later filter stages can
fail. -/
theorem C10_cascade_preserves_nontrivial (contours : List (List Vertex)) :
    (∀ es ∈ (contours.map convert_to_edge_set).filter filter_non_trivial,
        6 < es.length ∧ (longest_pair_indices es).isSome) ∧
    ∃ l2, filterOpt filter_longest_adjacent
        ((contours.map convert_to_edge_set).filter filter_non_trivial) = some l2 ∧
      (∀ es ∈ l2, 6 < es.length ∧ (longest_pair_indices es).isSome) ∧
      ∃ l3, filterOpt filter_longest_approx_orthogonal l2 = some l3 ∧
        (∀ es ∈ l3, 6 < es.length ∧ (longest_pair_indices es).isSome) ∧
        ∃ l4, filterOpt filter_longest_similar_in_length l3 = some l4 ∧
          ∀ es ∈ l4, 6 < es.length ∧ (longest_pair_indices es).isSome := by
  have h1 : ∀ es ∈ (contours.map convert_to_edge_set).filter filter_non_trivial,
      6 < es.length ∧ (longest_pair_indices es).isSome := by
    intro es hes
    rw [List.mem_filter] at hes
    have h6 : 6 < es.length := by simpa [filter_non_trivial] using hes.2
    exact ⟨h6, lpi_isSome (by omega)⟩
  have ht2 : (filterOpt filter_longest_adjacent
      ((contours.map convert_to_edge_set).filter filter_non_trivial)).isSome :=
    filterOpt_total fun es hes => by
      obtain ⟨ij, hij⟩ := Option.isSome_iff_exists.mp (h1 es hes).2
      rw [filter_longest_adjacent, hij]
      rfl
  obtain ⟨l2, hl2⟩ := Option.isSome_iff_exists.mp ht2
  have h2 : ∀ es ∈ l2, 6 < es.length ∧ (longest_pair_indices es).isSome :=
    fun es hes => h1 es (filterOpt_sound hl2 es hes).1
  have ht3 : (filterOpt filter_longest_approx_orthogonal l2).isSome :=
    filterOpt_total fun es hes => by
      obtain ⟨ij, hij⟩ := Option.isSome_iff_exists.mp (h2 es hes).2
      rw [filter_longest_approx_orthogonal, hij]
      rfl
  obtain ⟨l3, hl3⟩ := Option.isSome_iff_exists.mp ht3
  have h3 : ∀ es ∈ l3, 6 < es.length ∧ (longest_pair_indices es).isSome :=
    fun es hes => h2 es (filterOpt_sound hl3 es hes).1
  have ht4 : (filterOpt filter_longest_similar_in_length l3).isSome :=
    filterOpt_total fun es hes => by
      obtain ⟨ij, hij⟩ := Option.isSome_iff_exists.mp (h3 es hes).2
      rw [filter_longest_similar_in_length, hij]
      rfl
  obtain ⟨l4, hl4⟩ := Option.isSome_iff_exists.mp ht4
  have h4 : ∀ es ∈ l4, 6 < es.length ∧ (longest_pair_indices es).isSome :=
    fun es hes => h3 es (filterOpt_sound hl4 es hes).1
  exact ⟨h1, l2, hl2, h2, l3, hl3, h3, l4, hl4, h4⟩

theorem C10_cascade_preserves_nontrivial_witness :
    esGood ∈ ([contourB].map convert_to_edge_set).filter filter_non_trivial ∧
      6 < esGood.length ∧ (longest_pair_indices esGood).isSome :=
  ⟨by decide, (C10_cascade_preserves_nontrivial [contourB]).1 esGood (by decide)⟩

end PuckBarcode
